import Mathlib

/-!
Verification of the chained order-matching sequencer in `cross_fill.py`.

The embedding models the sequencer (`chain_trade`), the order-book snapshot
(`fetch_nbbo`), the position oracle (`get_yes_position_volume`) and the
top-level session skeleton (`main`) as executable Lean functions.  External
effects (oracle reads, order submissions, cancellations, book fetches) are
supplied by an `Env` of response streams indexed by per-effect call counters,
and every effect is recorded in an event log inside the interpreter state.
Unbounded `while` loops and the self-restarting `chain_trade` recursion are
modelled with explicit fuel; `none` means the fuel ran out.

Quantities and prices live in an arbitrary linearly ordered additive group
`α` (the sequencer only ever subtracts and compares sizes): `α = ℚ` is the
exact model of the source's float arithmetic, while concrete witnesses are
evaluated at `α = ℤ`, where every operation reduces inside the kernel.
-/

namespace CrossFill

/-- Order side, as the `side` string of `OrderArgs` in the source. -/
inductive Side where
  | buy
  | sell
deriving DecidableEq

/-- `OrderArgs(price=…, size=…, side=…, token_id=…)` from the source. -/
structure OrderArgs (α : Type) where
  price : α
  size : α
  side : Side
  tokenId : String
deriving DecidableEq

/-- Truthiness of an optional price in Python: `None` and `0.0` are falsy. -/
def truthy {α : Type} [Zero α] [DecidableEq α] : Option α → Bool
  | none => false
  | some b => if b = 0 then false else true

/-- `fetch_nbbo` (src/cross_fill.py lines 73-81) on the parsed price lists:
`(max(bids) if bids else None, min(asks) if asks else None)`. -/
def fetch_nbbo {α : Type} [LinearOrder α] (bids asks : List α) :
    Option α × Option α :=
  (match bids with
   | [] => none
   | b :: bs => some (bs.foldl max b),
   match asks with
   | [] => none
   | a :: rest => some (rest.foldl min a))

/-- Python's `str.lower()` (character-wise lowercasing), written over the
character list so that it evaluates inside the kernel. -/
def strLower (s : String) : String := ⟨s.data.map Char.toLower⟩

/-- One entry returned by the positions endpoint: the source reads
`pos.get("outcome", "")` and `pos.get("size", 0)`, so both fields may be
absent. -/
structure Position (α : Type) where
  outcome : Option String
  size : Option α
deriving DecidableEq

/-- `get_yes_position_volume` (src/cross_fill.py lines 84-94).  The argument
is the transport outcome of the HTTP request: `resp.raise_for_status()`
propagates a transport failure, otherwise the parsed position list is summed
with `sum(pos.get("size", 0) for pos in positions if
pos.get("outcome", "").lower() == "yes")`. -/
def get_yes_position_volume {α : Type} [AddCommMonoid α]
    (resp : Except String (List (Position α))) : Except String α :=
  match resp with
  | Except.error e => Except.error e
  | Except.ok positions =>
      Except.ok ((positions.filter
          (fun p => strLower (p.outcome.getD "") == "yes")).foldl
        (fun acc p => acc + p.size.getD 0) 0)

/-- Classification of one hand-off attempt, mirroring the `if`/`elif`/`else`
chain of src/cross_fill.py lines 237-260. -/
inductive StepClass where
  | fullMatch
  | shortFill
  | anomaly
deriving DecidableEq

/-- The branch test order of src/cross_fill.py lines 237-260:
`if sold >= remaining and bought >= remaining` (full match),
`elif sold > 0 and sold < remaining` (partial fill), `else` (anomaly). -/
def classifyStep {α : Type} [LinearOrder α] [Zero α]
    (sold bought remaining : α) : StepClass :=
  if remaining ≤ sold ∧ remaining ≤ bought then StepClass.fullMatch
  else if 0 < sold ∧ sold < remaining then StepClass.shortFill
  else StepClass.anomaly

/-- Skeleton of `main` (src/cross_fill.py lines 315-479) restricted to the
session-status writes.  `pre` is everything before `create_session` returns
(wallet load, client init, token and NBBO fetch); a failure there means
`session_uuid` is never bound, so the `except` branch writes no status.
`chains` covers the chain walks, `finalSell` the final disposal order.
`logFinal` is the final-sell database logging, which the source wraps in its
own `try`/`except` (lines 456-469), so its outcome is ignored.  Database
writes themselves are modelled as infallible.  The result is the list of
statuses written for the session, plus the re-raised exception if any. -/
def mainModel (pre chains finalSell logFinal : Except String Unit) :
    List String × Option String :=
  match pre with
  | Except.error e => ([], some e)
  | Except.ok _ =>
    match chains with
    | Except.error e => (["failed"], some e)
    | Except.ok _ =>
      match finalSell with
      | Except.error e => (["failed"], some e)
      | Except.ok _ =>
        match logFinal with
        | _ => (["completed"], none)

/-- One record of the interpreter's event log. -/
inductive Event (α : Type) where
  | oracleRead (wallet : ℕ) (val : α)
  | submit (wallet : ℕ) (args : OrderArgs α) (respId : ℕ)
  | cancelTry (wallet : ℕ) (oid : ℕ)
  | logTrade (wallet : ℕ) (side : Side) (price : α) (size : α) (ttype : String) (oid : Option ℕ)
  | nbboFetch (bid ask : Option α)
deriving DecidableEq

/-- Interpreter state: one call counter per external effect, plus the event
log (most recent event first). -/
structure St (α : Type) where
  nOracle : ℕ
  nOrder : ℕ
  nCancel : ℕ
  nNbbo : ℕ
  events : List (Event α)
deriving DecidableEq

/-- The external world: the value returned by the k-th position-oracle read,
the response id of the k-th order submission, the success of the k-th
cancellation attempt, and the book returned by the k-th NBBO fetch. -/
structure Env (α : Type) where
  oracle : ℕ → α
  orderResp : ℕ → ℕ
  cancelOk : ℕ → Bool
  nbbo : ℕ → Option α × Option α

/-- `get_yes_position_volume(wallet, condition)` as an effect: consume one
oracle response. -/
def readOracle {α : Type} (env : Env α) (w : ℕ) (st : St α) : α × St α :=
  (env.oracle st.nOracle,
   ⟨st.nOracle + 1, st.nOrder, st.nCancel, st.nNbbo,
    Event.oracleRead w (env.oracle st.nOracle) :: st.events⟩)

/-- `client.post_order(client.create_order(args), orderType=GTC)` as an
effect: consume one order response. -/
def postOrder {α : Type} (env : Env α) (w : ℕ) (args : OrderArgs α) (st : St α) :
    ℕ × St α :=
  (env.orderResp st.nOrder,
   ⟨st.nOracle, st.nOrder + 1, st.nCancel, st.nNbbo,
    Event.submit w args (env.orderResp st.nOrder) :: st.events⟩)

/-- `client.cancel(order_id)` as an effect: the returned flag is whether the
call succeeded; the caller decides whether a failure is swallowed (the
acquisition loop's `try`/`except`) or raises (everywhere else). -/
def cancelOrder {α : Type} (env : Env α) (w : ℕ) (oid : ℕ) (st : St α) :
    Bool × St α :=
  (env.cancelOk st.nCancel,
   ⟨st.nOracle, st.nOrder, st.nCancel + 1, st.nNbbo,
    Event.cancelTry w oid :: st.events⟩)

/-- `fetch_nbbo(token_id)` inside the divert branch, as an effect. -/
def fetchNbboCall {α : Type} (env : Env α) (st : St α) :
    (Option α × Option α) × St α :=
  (env.nbbo st.nNbbo,
   ⟨st.nOracle, st.nOrder, st.nCancel, st.nNbbo + 1,
    Event.nbboFetch (env.nbbo st.nNbbo).1 (env.nbbo st.nNbbo).2 :: st.events⟩)

/-- `db_manager.log_trade(...)` as an event. -/
def logTradeEv {α : Type} (w : ℕ) (side : Side) (price size : α) (ttype : String)
    (oid : Option ℕ) (st : St α) : St α :=
  ⟨st.nOracle, st.nOrder, st.nCancel, st.nNbbo,
   Event.logTrade w side price size ttype oid :: st.events⟩

/-- The `while acquired < size` loop of Phase A (src/cross_fill.py lines
158-184): submit a buy for `size - acquired`, re-read the position, recompute
`acquired = post - startVol`; if still short, cancel the resting order inside
a `try`/`except` (so the loop continues whether or not the cancel succeeds)
and repeat.  Returns `(acquired, last order id, state)`; `none` means the
fuel ran out before `acquired ≥ size`. -/
def initialBuyLoop {α : Type} [LinearOrderedAddCommGroup α] (env : Env α)
    (token : String) (size buyPrice : α) (w : ℕ) (startVol : α) :
    ℕ → α → Option ℕ → St α → Option (α × Option ℕ × St α)
  | 0, _, _, _ => none
  | fuel + 1, acquired, lastOid, st =>
    if acquired < size then
      let remaining := size - acquired
      let p := postOrder env w ⟨buyPrice, remaining, Side.buy, token⟩ st
      let r := readOracle env w p.2
      let acquired' := r.1 - startVol
      if acquired' < size then
        let c := cancelOrder env w p.1 r.2
        initialBuyLoop env token size buyPrice w startVol fuel acquired' (some p.1) c.2
      else
        some (acquired', some p.1, r.2)
    else
      some (acquired, lastOid, st)

/-- Phase A for the head wallet `w` (src/cross_fill.py lines 147-197): read
the starting position; if it already covers `size`, submit nothing;
otherwise run the acquisition loop and log one "initial_buy" trade with the
last order id. -/
def phaseA {α : Type} [LinearOrderedAddCommGroup α] (env : Env α)
    (token : String) (size buyPrice : α) (w : ℕ) (fuel : ℕ) (st : St α) :
    Option (St α) :=
  let r := readOracle env w st
  if r.1 ≥ size then
    some r.2
  else
    match initialBuyLoop env token size buyPrice w r.1 fuel 0 none r.2 with
    | none => none
    | some (_, oid, st1) =>
        some (logTradeEv w Side.buy buyPrice size "initial_buy" oid st1)

/-- Raisable failures of the chain walk in this model.  Only cancellation
calls are modelled as fallible; oracle reads, submissions and NBBO fetches
are total streams from `Env`. -/
inductive Err where
  | cancelFailed
deriving DecidableEq

/-- Outcome of the per-pair `while remaining > 0` loop. -/
inductive PairRes (α : Type) where
  | done (st : St α)
  | restart (st : St α)
  | failed (e : Err) (st : St α)
deriving DecidableEq

/-- The per-pair matching loop (src/cross_fill.py lines 213-307).
`startSeller`/`startBuyer` are the pre-step snapshots, read once by the
caller and held fixed across attempts; every attempt recomputes
`sold = startSeller - post_seller` and `bought = post_buyer - startBuyer`
against them.  Branches: full match logs both legs and sets the remainder to
0; partial fill cancels both resting orders (unprotected calls: a failure
raises) and retries with `remaining - sold`; the anomaly branch re-checks,
then diverts, restarts on misfill (cancelling the buyer's order, also
unprotected), or cancels both (unprotected) and retries unchanged. -/
def matchLoop {α : Type} [LinearOrderedAddCommGroup α] (env : Env α)
    (token : String) (midPrice : α) (seller buyer : ℕ)
    (startSeller startBuyer : α) : ℕ → α → St α → Option (PairRes α)
  | 0, _, _ => none
  | fuel + 1, remaining, st =>
    if 0 < remaining then
      let ps := postOrder env seller ⟨midPrice, remaining, Side.sell, token⟩ st
      let pb := postOrder env buyer ⟨midPrice, remaining, Side.buy, token⟩ ps.2
      let rs := readOracle env seller pb.2
      let rb := readOracle env buyer rs.2
      let sold := startSeller - rs.1
      let bought := rb.1 - startBuyer
      match classifyStep sold bought remaining with
      | StepClass.fullMatch =>
          let st1 := logTradeEv buyer Side.buy midPrice remaining "chain_match" (some pb.1) rb.2
          let st2 := logTradeEv seller Side.sell midPrice remaining "chain_match" (some ps.1) st1
          some (PairRes.done st2)
      | StepClass.shortFill =>
          let cb := cancelOrder env buyer pb.1 rb.2
          if cb.1 then
            let cs := cancelOrder env seller ps.1 cb.2
            if cs.1 then
              matchLoop env token midPrice seller buyer startSeller startBuyer fuel
                (remaining - sold) cs.2
            else some (PairRes.failed Err.cancelFailed cs.2)
          else some (PairRes.failed Err.cancelFailed cb.2)
      | StepClass.anomaly =>
          let rs2 := readOracle env seller rb.2
          let rb2 := readOracle env buyer rs2.2
          let reSold := startSeller - rs2.1
          let reBought := rb2.1 - startBuyer
          if remaining ≤ reSold ∧ remaining ≤ reBought then
            some (PairRes.done rb2.2)
          else if remaining ≤ bought ∧ sold < remaining then
            let nb := fetchNbboCall env rb2.2
            if 0 < rs.1 ∧ truthy nb.1.1 then
              let dv := postOrder env seller ⟨(nb.1.1).getD 0, rs.1, Side.sell, token⟩ nb.2
              some (PairRes.done dv.2)
            else
              some (PairRes.done nb.2)
          else if remaining ≤ sold ∧ bought = 0 then
            let cb := cancelOrder env buyer pb.1 rb2.2
            if cb.1 then some (PairRes.restart cb.2)
            else some (PairRes.failed Err.cancelFailed cb.2)
          else
            let cb := cancelOrder env buyer pb.1 rb2.2
            if cb.1 then
              let cs := cancelOrder env seller ps.1 cb.2
              if cs.1 then
                matchLoop env token midPrice seller buyer startSeller startBuyer fuel
                  remaining cs.2
              else some (PairRes.failed Err.cancelFailed cs.2)
            else some (PairRes.failed Err.cancelFailed cb.2)
    else some (PairRes.done st)

/-- Outcome of the pairwise walk over the whole chain. -/
inductive WalkRes (α : Type) where
  | completed (st : St α)
  | restartReq (st : St α)
  | failed (e : Err) (st : St α)
deriving DecidableEq

/-- The `for i in range(1, len(group))` walk (src/cross_fill.py lines
200-308): for each adjacent (seller, buyer) pair, read both starting
balances once, then run the matching loop for the full `size`; a misfill
inside the loop requests a restart of the whole chain trade.  (`size =
initial_size` at the end of each pair is a no-op in the source, since `size`
is never changed inside the loop.) -/
def pairsWalk {α : Type} [LinearOrderedAddCommGroup α] (env : Env α)
    (token : String) (size midPrice : α) (fuel : ℕ) :
    List ℕ → St α → Option (WalkRes α)
  | [], st => some (WalkRes.completed st)
  | [_], st => some (WalkRes.completed st)
  | seller :: buyer :: rest, st =>
    let rs := readOracle env seller st
    let rb := readOracle env buyer rs.2
    match matchLoop env token midPrice seller buyer rs.1 rb.1 fuel size rb.2 with
    | none => none
    | some (PairRes.failed e st1) => some (WalkRes.failed e st1)
    | some (PairRes.restart st1) => some (WalkRes.restartReq st1)
    | some (PairRes.done st1) =>
        pairsWalk env token size midPrice fuel (buyer :: rest) st1

/-- Phase A dispatch at the top of `chain_trade`: skipped entirely when
`skip_initial_buy` is set, otherwise run on the head wallet.  An empty group
(`group[0]` out of range in the source) is modelled as `none`; both call
sites pass at least five wallets. -/
def phaseADispatch {α : Type} [LinearOrderedAddCommGroup α] (env : Env α)
    (token : String) (group : List ℕ) (size buyPrice : α) (skip : Bool)
    (fuel : ℕ) (st : St α) : Option (St α) :=
  if skip then some st
  else
    match group with
    | [] => none
    | w :: _ => phaseA env token size buyPrice w fuel st

/-- Result of one whole `chain_trade` call. -/
inductive RunRes (α : Type) where
  | ok (st : St α)
  | err (e : Err) (st : St α)
deriving DecidableEq

/-- `chain_trade` (src/cross_fill.py lines 140-311): Phase A, then the
pairwise walk; a misfill re-invokes the whole operation with the original
`initial_size`, `buy_price`, `mid_price` and `skip_initial_buy=False`
(lines 295-298).  The restart recursion consumes one unit of fuel. -/
def chain_trade {α : Type} [LinearOrderedAddCommGroup α] (env : Env α)
    (token : String) (group : List ℕ) (initialSize buyPrice midPrice : α) :
    Bool → ℕ → St α → Option (RunRes α)
  | _, 0, _ => none
  | skip, fuel + 1, st =>
    match phaseADispatch env token group initialSize buyPrice skip fuel st with
    | none => none
    | some st1 =>
      match pairsWalk env token initialSize midPrice fuel group st1 with
      | none => none
      | some (WalkRes.failed e st2) => some (RunRes.err e st2)
      | some (WalkRes.completed st2) => some (RunRes.ok st2)
      | some (WalkRes.restartReq st2) =>
          chain_trade env token group initialSize buyPrice midPrice false fuel st2

/-- Projection: the raised error of a chain-trade result, if any. -/
def resErr {α : Type} : Option (RunRes α) → Option Err
  | some (RunRes.err e _) => some e
  | _ => none

/-- Number of order submissions recorded in an event list. -/
def numSubmits {α : Type} (evs : List (Event α)) : ℕ :=
  (evs.filter (fun e => match e with
    | Event.submit _ _ _ => true
    | _ => false)).length

/-- Helper: Python's `max` over a nonempty list, as the fold used in
`fetch_nbbo`, is a member of the list. -/
theorem foldl_max_mem {α : Type} [LinearOrder α] (b : α) (l : List α) :
    l.foldl max b ∈ b :: l := by
  induction l generalizing b with
  | nil => simp
  | cons x xs ih =>
      rcases List.mem_cons.mp (ih (max b x)) with h | h
      · rcases max_choice b x with hb | hx
        · exact List.mem_cons.mpr (Or.inl (by rw [List.foldl_cons, h, hb]))
        · exact List.mem_cons.mpr (Or.inr (List.mem_cons.mpr (Or.inl (by rw [List.foldl_cons, h, hx]))))
      · exact List.mem_cons.mpr (Or.inr (List.mem_cons.mpr (Or.inr h)))

/-- Helper: every element of the list is bounded by the `max` fold. -/
theorem le_foldl_max {α : Type} [LinearOrder α] (b : α) (l : List α) :
    ∀ x ∈ b :: l, x ≤ l.foldl max b := by
  induction l generalizing b with
  | nil => intro x hx; simp at hx; simp [hx]
  | cons y ys ih =>
      intro x hx
      rcases List.mem_cons.mp hx with h | h
      · calc x = b := h
          _ ≤ max b y := le_max_left b y
          _ ≤ ys.foldl max (max b y) := ih (max b y) (max b y) (List.mem_cons_self _ _)
          _ = (y :: ys).foldl max b := by rw [List.foldl_cons]
      · rcases List.mem_cons.mp h with h' | h'
        · calc x = y := h'
            _ ≤ max b y := le_max_right b y
            _ ≤ ys.foldl max (max b y) := ih (max b y) (max b y) (List.mem_cons_self _ _)
            _ = (y :: ys).foldl max b := by rw [List.foldl_cons]
        · exact (ih (max b y) x (List.mem_cons.mpr (Or.inr h')))

/-- Helper: Python's `min` over a nonempty list is a member of the list. -/
theorem foldl_min_mem {α : Type} [LinearOrder α] (b : α) (l : List α) :
    l.foldl min b ∈ b :: l := by
  induction l generalizing b with
  | nil => simp
  | cons x xs ih =>
      rcases List.mem_cons.mp (ih (min b x)) with h | h
      · rcases min_choice b x with hb | hx
        · exact List.mem_cons.mpr (Or.inl (by rw [List.foldl_cons, h, hb]))
        · exact List.mem_cons.mpr (Or.inr (List.mem_cons.mpr (Or.inl (by rw [List.foldl_cons, h, hx]))))
      · exact List.mem_cons.mpr (Or.inr (List.mem_cons.mpr (Or.inr h)))

/-- Helper: the `min` fold is a lower bound of the list. -/
theorem foldl_min_le {α : Type} [LinearOrder α] (b : α) (l : List α) :
    ∀ x ∈ b :: l, l.foldl min b ≤ x := by
  induction l generalizing b with
  | nil => intro x hx; simp at hx; simp [hx]
  | cons y ys ih =>
      intro x hx
      rcases List.mem_cons.mp hx with h | h
      · calc (y :: ys).foldl min b = ys.foldl min (min b y) := by rw [List.foldl_cons]
          _ ≤ min b y := ih (min b y) (min b y) (List.mem_cons_self _ _)
          _ ≤ b := min_le_left b y
          _ = x := h.symm
      · rcases List.mem_cons.mp h with h' | h'
        · calc (y :: ys).foldl min b = ys.foldl min (min b y) := by rw [List.foldl_cons]
            _ ≤ min b y := ih (min b y) (min b y) (List.mem_cons_self _ _)
            _ ≤ y := min_le_right b y
            _ = x := h'.symm
        · exact (ih (min b y) x (List.mem_cons.mpr (Or.inr h')))

/-- Helper: a left fold of addition over mapped elements equals the
accumulator plus the sum of the mapped list. -/
theorem foldl_add_map {α β : Type} [AddCommMonoid β] (f : α → β) (l : List α) (a : β) :
    l.foldl (fun acc p => acc + f p) a = a + (l.map f).sum := by
  induction l generalizing a with
  | nil => simp
  | cons x xs ih => simp [ih, add_assoc]

/-- C1: for every pair of deltas `(sold, bought)` and every positive
`remaining`, the step classification of the hand-off loop is a trichotomy:
full match exactly when `sold ≥ remaining ∧ bought ≥ remaining`, partial
fill exactly when `0 < sold < remaining`, and every other `(sold, bought)`
pair enters the anomaly branch. -/
theorem classifyStep_trichotomy {α : Type} [LinearOrder α] [Zero α]
    (sold bought remaining : α) (hr : 0 < remaining) :
    (classifyStep sold bought remaining = StepClass.fullMatch
       ↔ remaining ≤ sold ∧ remaining ≤ bought)
    ∧ (classifyStep sold bought remaining = StepClass.shortFill
       ↔ 0 < sold ∧ sold < remaining)
    ∧ (classifyStep sold bought remaining = StepClass.anomaly
       ↔ ¬(remaining ≤ sold ∧ remaining ≤ bought) ∧ ¬(0 < sold ∧ sold < remaining)) := by
  unfold classifyStep
  split_ifs with h1 h2
  · exact ⟨iff_of_true rfl h1,
      iff_of_false (by simp) (fun h => absurd h1.1 (not_le.mpr h.2)),
      iff_of_false (by simp) (fun h => h.1 h1)⟩
  · exact ⟨iff_of_false (by simp) h1,
      iff_of_true rfl h2,
      iff_of_false (by simp) (fun h => h.2 h2)⟩
  · exact ⟨iff_of_false (by simp) h1,
      iff_of_false (by simp) h2,
      iff_of_true rfl ⟨h1, h2⟩⟩

/-- Witness for C1 at `(sold, bought, remaining) = (5, 5, 5)` over `ℤ`. -/
theorem classifyStep_trichotomy_witness :
    (classifyStep (5:ℤ) 5 5 = StepClass.fullMatch ↔ (5:ℤ) ≤ 5 ∧ (5:ℤ) ≤ 5)
    ∧ (classifyStep (5:ℤ) 5 5 = StepClass.shortFill ↔ (0:ℤ) < 5 ∧ (5:ℤ) < 5)
    ∧ (classifyStep (5:ℤ) 5 5 = StepClass.anomaly
       ↔ ¬((5:ℤ) ≤ 5 ∧ (5:ℤ) ≤ 5) ∧ ¬((0:ℤ) < 5 ∧ (5:ℤ) < 5)) :=
  classifyStep_trichotomy 5 5 5 (by decide)

/-- C7: `fetch_nbbo` returns (max of bids, min of asks), with `none` (never
a default of 0) for an empty side; on bids `[0.51, 0.48]` and asks
`[0.55, 0.53]` it returns `(0.51, 0.53)`. -/
theorem fetch_nbbo_spec :
    (∀ {α : Type} [LinearOrder α] (bids asks : List α),
      ((fetch_nbbo bids asks).1 = none ↔ bids = [])
      ∧ ((fetch_nbbo bids asks).2 = none ↔ asks = [])
      ∧ (∀ m, (fetch_nbbo bids asks).1 = some m → m ∈ bids ∧ ∀ x ∈ bids, x ≤ m)
      ∧ (∀ m, (fetch_nbbo bids asks).2 = some m → m ∈ asks ∧ ∀ x ∈ asks, m ≤ x))
    ∧ fetch_nbbo [(0.51:ℚ), 0.48] [0.55, 0.53] = (some 0.51, some 0.53) := by
  constructor
  · intro α ord bids asks
    refine ⟨?_, ?_, ?_, ?_⟩
    · cases bids <;> simp [fetch_nbbo]
    · cases asks <;> simp [fetch_nbbo]
    · intro m hm
      cases bids with
      | nil => simp [fetch_nbbo] at hm
      | cons b bs =>
          simp only [fetch_nbbo, Option.some.injEq] at hm
          rw [← hm]
          exact ⟨foldl_max_mem b bs, le_foldl_max b bs⟩
    · intro m hm
      cases asks with
      | nil => simp [fetch_nbbo] at hm
      | cons a rest =>
          simp only [fetch_nbbo, Option.some.injEq] at hm
          rw [← hm]
          exact ⟨foldl_min_mem a rest, foldl_min_le a rest⟩
  · show (some (max (0.51:ℚ) 0.48), some (min (0.55:ℚ) 0.53)) = (some 0.51, some 0.53)
    norm_num

/-- Witness for C7: the maximality conclusion instantiated on the concrete
book of the claim. -/
theorem fetch_nbbo_spec_witness :
    (0.51:ℚ) ∈ [(0.51:ℚ), 0.48] ∧ ∀ x ∈ [(0.51:ℚ), 0.48], x ≤ 0.51 :=
  (fetch_nbbo_spec.1 [(0.51:ℚ), 0.48] [0.55, 0.53]).2.2.1 0.51
    (congrArg Prod.fst fetch_nbbo_spec.2)

/-- C8: `get_yes_position_volume` sums the sizes of exactly the entries
whose outcome label lowercases to "yes"; an empty list yields 0 as a valid
no-position answer; a transport failure propagates unchanged with no partial
result.  The last conjunct checks case-insensitivity concretely over `ℤ`. -/
theorem get_yes_position_volume_spec {α : Type} [AddCommMonoid α] :
    (∀ ps : List (Position α),
        get_yes_position_volume (Except.ok ps)
          = Except.ok (((ps.filter
                (fun p => strLower (p.outcome.getD "") == "yes")).map
              (fun p => p.size.getD 0)).sum))
    ∧ get_yes_position_volume (Except.ok ([] : List (Position α))) = Except.ok 0
    ∧ (∀ e, get_yes_position_volume (Except.error e : Except String (List (Position α)))
        = Except.error e)
    ∧ get_yes_position_volume (Except.ok
          [(⟨some "YES", some 2⟩ : Position ℤ), ⟨some "Yes", some 3⟩,
           ⟨some "no", some 5⟩, ⟨none, some 7⟩])
        = Except.ok 5 := by
  refine ⟨?_, ?_, ?_, ?_⟩
  · intro ps
    simp [get_yes_position_volume, foldl_add_map]
  · rfl
  · intro e; rfl
  · rfl

/-- Witness for C8: transport-failure propagation instantiated at a concrete
error. -/
theorem get_yes_position_volume_spec_witness :
    get_yes_position_volume (Except.error "HTTP 500" : Except String (List (Position ℤ)))
      = Except.error "HTTP 500" :=
  get_yes_position_volume_spec.2.2.1 "HTTP 500"

/-- C9: for every run, the session (once created) ends with its terminal
status written exactly once — "completed" exactly when the chain walks and
the final sell return normally, "failed" exactly when an exception
propagates (and is then re-raised); no other status is ever written, and a
failure before session creation writes no status at all. -/
theorem main_session_status (pre chains finalSell logFinal : Except String Unit) :
    (∀ w ∈ (mainModel pre chains finalSell logFinal).1, w = "completed" ∨ w = "failed")
    ∧ (pre = Except.ok () →
        (mainModel pre chains finalSell logFinal).1.length = 1
        ∧ ((mainModel pre chains finalSell logFinal).1 = ["completed"]
             ↔ chains = Except.ok () ∧ finalSell = Except.ok ())
        ∧ ((mainModel pre chains finalSell logFinal).1 = ["failed"]
             ↔ (mainModel pre chains finalSell logFinal).2 ≠ none))
    ∧ (∀ e, pre = Except.error e →
        (mainModel pre chains finalSell logFinal).1 = []
          ∧ (mainModel pre chains finalSell logFinal).2 = some e) := by
  cases pre with
  | error e => simp [mainModel]
  | ok u =>
      cases u
      cases chains with
      | error e' => cases finalSell <;> cases logFinal <;> simp [mainModel]
      | ok u' =>
          cases u'
          cases finalSell with
          | error e'' => cases logFinal <;> simp [mainModel]
          | ok u'' => cases u''; cases logFinal <;> simp [mainModel]

/-- Witness for C9: the chain walks and the final sell succeed while the
final-sell database logging fails; the session still ends "completed",
written once. -/
theorem main_session_status_witness :
    (mainModel (Except.ok ()) (Except.ok ()) (Except.ok ()) (Except.error "db down")).1.length = 1
    ∧ ((mainModel (Except.ok ()) (Except.ok ()) (Except.ok ()) (Except.error "db down")).1
         = ["completed"]
       ↔ (Except.ok () : Except String Unit) = Except.ok ()
           ∧ (Except.ok () : Except String Unit) = Except.ok ()) :=
  ⟨((main_session_status (Except.ok ()) (Except.ok ()) (Except.ok ())
      (Except.error "db down")).2.1 rfl).1,
   ((main_session_status (Except.ok ()) (Except.ok ()) (Except.ok ())
      (Except.error "db down")).2.1 rfl).2.1⟩

/-- Shared concrete starting state for witnesses: all counters 0, empty log. -/
def st0 : St ℤ := ⟨0, 0, 0, 0, []⟩

/-- C4: when the head account's position read already covers the target
(`start ≥ target`), Phase A submits zero orders: the buy loop is skipped
entirely. -/
theorem phaseA_already_acquired {α : Type} [LinearOrderedAddCommGroup α]
    (env : Env α) (token : String) (size buyPrice : α) (w fuel : ℕ) (st : St α)
    (h : size ≤ env.oracle st.nOracle) :
    ∃ st1, phaseA env token size buyPrice w fuel st = some st1
      ∧ numSubmits st1.events = numSubmits st.events
      ∧ st1.nOrder = st.nOrder := by
  refine ⟨(readOracle env w st).2, ?_, ?_, rfl⟩
  · dsimp only [phaseA, readOracle]
    rw [if_pos h]
  · simp [readOracle, numSubmits]

/-- Witness for C4: a wallet holding 5 with target 3 triggers the skip. -/
theorem phaseA_already_acquired_witness :
    ∃ st1, phaseA (⟨fun _ => 5, fun _ => 0, fun _ => true, fun _ => (none, none)⟩ : Env ℤ)
        "tok" 3 1 0 4 st0 = some st1
      ∧ numSubmits st1.events = numSubmits st0.events
      ∧ st1.nOrder = st0.nOrder :=
  phaseA_already_acquired (⟨fun _ => 5, fun _ => 0, fun _ => true, fun _ => (none, none)⟩ : Env ℤ)
    "tok" 3 1 0 4 st0 (by decide)

/-- Helper: the acquisition loop only ever returns with `acquired ≥ size`. -/
theorem initialBuyLoop_exit {α : Type} [LinearOrderedAddCommGroup α] (env : Env α)
    (token : String) (size buyPrice : α) (w : ℕ) (startVol : α) :
    ∀ (fuel : ℕ) (a : α) (lastOid : Option ℕ) (st : St α) (res : α × Option ℕ × St α),
      initialBuyLoop env token size buyPrice w startVol fuel a lastOid st = some res →
      size ≤ res.1 := by
  intro fuel
  induction fuel with
  | zero => intro a lastOid st res h; simp [initialBuyLoop] at h
  | succ n ih =>
      intro a lastOid st res h
      simp only [initialBuyLoop, postOrder, readOracle, cancelOrder] at h
      split at h
      · split at h
        · exact ih _ _ _ _ h
        · next h2 =>
            injection h with h'
            rw [← h']
            exact not_lt.mp h2
      · next h1 =>
          injection h with h'
          rw [← h']
          exact not_lt.mp h1

/-- Helper: the acquisition loop only ever appends to the event log. -/
theorem initialBuyLoop_events_suffix {α : Type} [LinearOrderedAddCommGroup α]
    (env : Env α) (token : String) (size buyPrice : α) (w : ℕ) (startVol : α) :
    ∀ (fuel : ℕ) (a : α) (lastOid : Option ℕ) (st : St α) (res : α × Option ℕ × St α),
      initialBuyLoop env token size buyPrice w startVol fuel a lastOid st = some res →
      ∃ evs, res.2.2.events = evs ++ st.events := by
  intro fuel
  induction fuel with
  | zero => intro a lastOid st res h; simp [initialBuyLoop] at h
  | succ n ih =>
      intro a lastOid st res h
      simp only [initialBuyLoop, postOrder, readOracle, cancelOrder] at h
      split at h
      · split at h
        · obtain ⟨evs, hevs⟩ := ih _ _ _ _ h
          refine ⟨evs ++ [Event.cancelTry w (env.orderResp st.nOrder),
            Event.oracleRead w (env.oracle st.nOracle),
            Event.submit w ⟨buyPrice, size - a, Side.buy, token⟩ (env.orderResp st.nOrder)], ?_⟩
          rw [hevs]
          simp
        · injection h with h'
          rw [← h']
          exact ⟨[Event.oracleRead w (env.oracle st.nOracle),
            Event.submit w ⟨buyPrice, size - a, Side.buy, token⟩ (env.orderResp st.nOrder)], rfl⟩
      · injection h with h'
        rw [← h']
        exact ⟨[], rfl⟩

/-- C3: whenever the Phase A acquisition loop is entered with
`acquired = a`, (i) if it terminates, it does so in a state with
`acquired ≥ size`, and (ii) if `a < size`, the buy order submitted by that
iteration is for exactly `size - a` at the acquisition price — and since the
theorem quantifies over every entry state, this holds at every iteration of
the loop. -/
theorem acquisition_loop_spec {α : Type} [LinearOrderedAddCommGroup α]
    (env : Env α) (token : String) (size buyPrice startVol a : α) (w fuel : ℕ)
    (lastOid : Option ℕ) (st : St α) (res : α × Option ℕ × St α)
    (h : initialBuyLoop env token size buyPrice w startVol fuel a lastOid st = some res) :
    size ≤ res.1
    ∧ (a < size →
        ∃ evs, res.2.2.events
          = evs ++ Event.submit w ⟨buyPrice, size - a, Side.buy, token⟩
              (env.orderResp st.nOrder) :: st.events) := by
  constructor
  · exact initialBuyLoop_exit env token size buyPrice w startVol fuel a lastOid st res h
  · intro ha
    cases fuel with
    | zero => simp [initialBuyLoop] at h
    | succ n =>
        simp only [initialBuyLoop, postOrder, readOracle, cancelOrder] at h
        rw [if_pos ha] at h
        split at h
        · obtain ⟨evs, hevs⟩ := initialBuyLoop_events_suffix env token size buyPrice w
            startVol n _ _ _ res h
          refine ⟨evs ++ [Event.cancelTry w (env.orderResp st.nOrder),
            Event.oracleRead w (env.oracle st.nOracle)], ?_⟩
          rw [hevs]
          simp
        · injection h with h'
          rw [← h']
          exact ⟨[Event.oracleRead w (env.oracle st.nOracle)], rfl⟩

/-- Witness for C3: starting from 0 with target 5, the oracle settles the
whole size after one submission; the loop exits at `acquired = 5 ≥ 5` and
the single submitted order was for `5 - 0`. -/
theorem acquisition_loop_spec_witness :
    (5:ℤ) ≤ (5, some 7, (⟨1, 1, 0, 0,
        [Event.oracleRead 0 5, Event.submit 0 ⟨1, 5, Side.buy, "tok"⟩ 7]⟩ : St ℤ)).1
    ∧ ((0:ℤ) < 5 →
        ∃ evs, ((5:ℤ), some 7, (⟨1, 1, 0, 0,
            [Event.oracleRead 0 5, Event.submit 0 ⟨1, 5, Side.buy, "tok"⟩ 7]⟩ : St ℤ)).2.2.events
          = evs ++ Event.submit 0 ⟨1, 5 - 0, Side.buy, "tok"⟩
              ((⟨fun _ => 5, fun _ => 7, fun _ => true, fun _ => (none, none)⟩ : Env ℤ).orderResp
                st0.nOrder) :: st0.events) :=
  acquisition_loop_spec (⟨fun _ => 5, fun _ => 7, fun _ => true, fun _ => (none, none)⟩ : Env ℤ)
    "tok" 5 1 0 0 0 1 none st0
    (5, some 7, ⟨1, 1, 0, 0, [Event.oracleRead 0 5, Event.submit 0 ⟨1, 5, Side.buy, "tok"⟩ 7]⟩)
    (by rfl)

/-- C2: when the misfill branch fires (`sold ≥ remaining` while
`bought = 0`, after the anomaly recheck stayed short), the pair loop
requests a restart (first conjunct), and `chain_trade` services a restart
request by re-invoking itself with the original `initial_size`,
`buy_price`, `mid_price` and `skip_initial_buy = False` — not with the
partially-consumed remaining (second conjunct). -/
theorem misfill_restart_spec {α : Type} [LinearOrderedAddCommGroup α] (env : Env α)
    (token : String) (midPrice : α) (fuel : ℕ) :
    (∀ (seller buyer : ℕ) (startSeller startBuyer remaining : α) (st : St α),
      0 < remaining →
      classifyStep (startSeller - env.oracle st.nOracle)
          (env.oracle (st.nOracle + 1) - startBuyer) remaining = StepClass.anomaly →
      ¬(remaining ≤ startSeller - env.oracle (st.nOracle + 2)
          ∧ remaining ≤ env.oracle (st.nOracle + 3) - startBuyer) →
      remaining ≤ startSeller - env.oracle st.nOracle →
      env.oracle (st.nOracle + 1) - startBuyer = 0 →
      env.cancelOk st.nCancel = true →
      ∃ st1, matchLoop env token midPrice seller buyer startSeller startBuyer
          (fuel + 1) remaining st = some (PairRes.restart st1))
    ∧ (∀ (group : List ℕ) (initialSize buyPrice : α) (skip : Bool) (st st1 st2 : St α),
        phaseADispatch env token group initialSize buyPrice skip fuel st = some st1 →
        pairsWalk env token initialSize midPrice fuel group st1
          = some (WalkRes.restartReq st2) →
        chain_trade env token group initialSize buyPrice midPrice skip (fuel + 1) st
          = chain_trade env token group initialSize buyPrice midPrice false fuel st2) := by
  constructor
  · intro seller buyer startSeller startBuyer remaining st hrem hclass hre hsold hbought hcancel
    have hdiv : ¬(remaining ≤ env.oracle (st.nOracle + 1) - startBuyer
        ∧ startSeller - env.oracle st.nOracle < remaining) :=
      fun hc => absurd (hbought ▸ hc.1) (not_le.mpr hrem)
    refine ⟨?_, ?_⟩
    rotate_left
    · simp only [matchLoop, postOrder, readOracle, cancelOrder, fetchNbboCall]
      rw [if_pos hrem, hclass]
      have e2 : st.nOracle + 1 + 1 = st.nOracle + 2 := rfl
      have e3 : st.nOracle + 1 + 1 + 1 = st.nOracle + 3 := rfl
      rw [e2, e3]
      rw [if_neg hre, if_neg hdiv, if_pos (And.intro hsold hbought), hcancel]
      exact rfl
  · intro group initialSize buyPrice skip st st1 st2 h1 h2
    simp only [chain_trade]
    rw [h1]
    dsimp only
    rw [h2]

/-- Concrete world for the C2 witness: the seller's inventory drains by the
full size while the designated buyer receives nothing, also on recheck; the
head wallet holds enough on the restart. -/
def envMisfill : Env ℤ :=
  ⟨fun k => [(5:ℤ), 0, 0, 0, 0, 0, 6, 5, 0, 0, 5].getD k 0,
   fun _ => 7, fun _ => true, fun _ => (none, none)⟩

/-- The state in which the C2 witness's pair walk requests its restart. -/
def stMisfill : St ℤ :=
  match pairsWalk envMisfill "tok" 5 1 2 [0, 1] st0 with
  | some (WalkRes.restartReq st) => st
  | _ => st0

/-- Witness for C2: both conjuncts instantiated on `envMisfill`. -/
theorem misfill_restart_spec_witness :
    (∃ st1, matchLoop envMisfill "tok" 1 0 1 5 0 (1 + 1) 5
        (⟨2, 0, 0, 0, [Event.oracleRead 1 0, Event.oracleRead 0 5]⟩ : St ℤ)
      = some (PairRes.restart st1))
    ∧ chain_trade envMisfill "tok" [0, 1] 5 1 1 true (2 + 1) st0
      = chain_trade envMisfill "tok" [0, 1] 5 1 1 false 2 stMisfill :=
  ⟨(misfill_restart_spec envMisfill "tok" 1 1).1 0 1 5 0 5
      ⟨2, 0, 0, 0, [Event.oracleRead 1 0, Event.oracleRead 0 5]⟩
      (by decide) (by decide) (by decide) (by decide) (by decide) rfl,
   (misfill_restart_spec envMisfill "tok" 1 2).2 [0, 1] 5 1 true st0 st0 stMisfill
      rfl rfl⟩

/-- Helper for C5: under the divert conditions (anomaly classification,
recheck still short, `bought ≥ remaining`, `sold < remaining`, positive
residual, truthy best bid), the pair loop submits a sell of the seller's
residual holding at the best bid and finishes the pair with
`PairRes.done`. -/
theorem divert_step_aux {α : Type} [LinearOrderedAddCommGroup α] (env : Env α)
    (token : String) (midPrice : α) (seller buyer : ℕ)
    (startSeller startBuyer remaining : α) (fuel : ℕ) (st : St α)
    (hrem : 0 < remaining)
    (hclass : classifyStep (startSeller - env.oracle st.nOracle)
        (env.oracle (st.nOracle + 1) - startBuyer) remaining = StepClass.anomaly)
    (hre : ¬(remaining ≤ startSeller - env.oracle (st.nOracle + 2)
        ∧ remaining ≤ env.oracle (st.nOracle + 3) - startBuyer))
    (hb : remaining ≤ env.oracle (st.nOracle + 1) - startBuyer)
    (hs : startSeller - env.oracle st.nOracle < remaining)
    (hps : 0 < env.oracle st.nOracle)
    (htr : truthy (env.nbbo st.nNbbo).1 = true) :
    ∃ st1, matchLoop env token midPrice seller buyer startSeller startBuyer
        (fuel + 1) remaining st = some (PairRes.done st1)
      ∧ st1.events.head? = some (Event.submit seller
          ⟨((env.nbbo st.nNbbo).1).getD 0, env.oracle st.nOracle, Side.sell, token⟩
          (env.orderResp (st.nOrder + 2))) := by
  refine ⟨?_, ?_, ?_⟩
  rotate_left
  · simp only [matchLoop, postOrder, readOracle, cancelOrder, fetchNbboCall]
    rw [if_pos hrem, hclass]
    have e2 : st.nOracle + 1 + 1 = st.nOracle + 2 := rfl
    have e3 : st.nOracle + 1 + 1 + 1 = st.nOracle + 3 := rfl
    rw [e2, e3]
    rw [if_neg hre, if_pos (And.intro hb hs), if_pos (And.intro hps htr)]
    exact rfl
  · exact rfl

/-- C5: when the divert branch fires, the pair loop submits a fresh sell of
the seller's residual holding at the current best bid and returns
`PairRes.done` (pair advancement), and it does so for every possible
order-response stream — the divert sell's outcome is neither awaited nor
verified, so advancement never depends on it. -/
theorem divert_spec {α : Type} [LinearOrderedAddCommGroup α] (env : Env α)
    (token : String) (midPrice : α) (seller buyer : ℕ)
    (startSeller startBuyer remaining : α) (fuel : ℕ) (st : St α)
    (hrem : 0 < remaining)
    (hclass : classifyStep (startSeller - env.oracle st.nOracle)
        (env.oracle (st.nOracle + 1) - startBuyer) remaining = StepClass.anomaly)
    (hre : ¬(remaining ≤ startSeller - env.oracle (st.nOracle + 2)
        ∧ remaining ≤ env.oracle (st.nOracle + 3) - startBuyer))
    (hb : remaining ≤ env.oracle (st.nOracle + 1) - startBuyer)
    (hs : startSeller - env.oracle st.nOracle < remaining)
    (hps : 0 < env.oracle st.nOracle)
    (htr : truthy (env.nbbo st.nNbbo).1 = true) :
    (∃ st1, matchLoop env token midPrice seller buyer startSeller startBuyer
        (fuel + 1) remaining st = some (PairRes.done st1)
      ∧ st1.events.head? = some (Event.submit seller
          ⟨((env.nbbo st.nNbbo).1).getD 0, env.oracle st.nOracle, Side.sell, token⟩
          (env.orderResp (st.nOrder + 2))))
    ∧ (∀ respAlt : ℕ → ℕ, ∃ st2,
        matchLoop (⟨env.oracle, respAlt, env.cancelOk, env.nbbo⟩ : Env α) token midPrice
          seller buyer startSeller startBuyer (fuel + 1) remaining st
          = some (PairRes.done st2)) :=
  ⟨divert_step_aux env token midPrice seller buyer startSeller startBuyer remaining fuel st
      hrem hclass hre hb hs hps htr,
   fun respAlt =>
    (divert_step_aux (⟨env.oracle, respAlt, env.cancelOk, env.nbbo⟩ : Env α) token midPrice
        seller buyer startSeller startBuyer remaining fuel st
        hrem hclass hre hb hs hps htr).imp
      (fun _ hx => hx.1)⟩

/-- Concrete world for the C5 witness: the buyer fills its whole target from
the open market (`bought = 5`) while the seller's inventory is untouched
(`sold = 0`); the book shows a truthy best bid. -/
def envDivert : Env ℤ :=
  ⟨fun _ => 5, fun _ => 7, fun _ => true, fun _ => (some 1, some 2)⟩

/-- Witness for C5 on `envDivert`. -/
theorem divert_spec_witness :
    (∃ st1, matchLoop envDivert "tok" 1 0 1 5 0 (1 + 1) 5 st0 = some (PairRes.done st1)
      ∧ st1.events.head? = some (Event.submit 0
          ⟨((envDivert.nbbo st0.nNbbo).1).getD 0, envDivert.oracle st0.nOracle,
           Side.sell, "tok"⟩
          (envDivert.orderResp (st0.nOrder + 2))))
    ∧ (∀ respAlt : ℕ → ℕ, ∃ st2,
        matchLoop (⟨envDivert.oracle, respAlt, envDivert.cancelOk, envDivert.nbbo⟩ : Env ℤ)
          "tok" 1 0 1 5 0 (1 + 1) 5 st0 = some (PairRes.done st2)) :=
  divert_spec envDivert "tok" 1 0 1 5 0 5 1 st0
    (by decide) (by decide) (by decide) (by decide) (by decide) (by decide) rfl

/-- Concrete world refuting C6: the pair's deltas give a partial fill
(`sold = 3` of 5), and every cancellation call fails. -/
def envCancelFail : Env ℤ :=
  ⟨fun k => [(5:ℤ), 0, 2, 0].getD k 0, fun _ => 7, fun _ => false,
   fun _ => (none, none)⟩

/-- Counterexample to C6: in the partial-fill branch the two `cancel` calls
are not wrapped in `try`/`except` (src/cross_fill.py lines 252-253), so a
failing cancellation propagates and aborts the chain walk instead of being
swallowed: on `envCancelFail` the whole `chain_trade` run raises. -/
theorem cancellation_swallowed_cex :
    resErr (chain_trade envCancelFail "tok" [0, 1] 5 1 1 true 3 st0)
      = some Err.cancelFailed := rfl

/-- C6 as amended: cancellation failures are swallowed only in the
acquisition loop, whose behaviour is entirely independent of cancel
outcomes (first conjunct); in the partial-fill branch (second conjunct) and
the catch-all anomaly branch (third conjunct) the cancellation calls are
unprotected, so a cancellation failure raises and aborts the chain walk. -/
theorem cancellation_failure_spec {α : Type} [LinearOrderedAddCommGroup α] :
    (∀ (env : Env α) (ok' : ℕ → Bool) (token : String) (size buyPrice : α) (w : ℕ)
        (startVol : α) (fuel : ℕ) (a : α) (lastOid : Option ℕ) (st : St α),
      initialBuyLoop env token size buyPrice w startVol fuel a lastOid st
        = initialBuyLoop (⟨env.oracle, env.orderResp, ok', env.nbbo⟩ : Env α)
            token size buyPrice w startVol fuel a lastOid st)
    ∧ (∀ (env : Env α) (token : String) (midPrice : α) (seller buyer : ℕ)
        (startSeller startBuyer remaining : α) (fuel : ℕ) (st : St α),
      0 < remaining →
      classifyStep (startSeller - env.oracle st.nOracle)
          (env.oracle (st.nOracle + 1) - startBuyer) remaining = StepClass.shortFill →
      env.cancelOk st.nCancel = false →
      ∃ st1, matchLoop env token midPrice seller buyer startSeller startBuyer
          (fuel + 1) remaining st = some (PairRes.failed Err.cancelFailed st1))
    ∧ (∀ (env : Env α) (token : String) (midPrice : α) (seller buyer : ℕ)
        (startSeller startBuyer remaining : α) (fuel : ℕ) (st : St α),
      0 < remaining →
      classifyStep (startSeller - env.oracle st.nOracle)
          (env.oracle (st.nOracle + 1) - startBuyer) remaining = StepClass.anomaly →
      ¬(remaining ≤ startSeller - env.oracle (st.nOracle + 2)
          ∧ remaining ≤ env.oracle (st.nOracle + 3) - startBuyer) →
      ¬(remaining ≤ env.oracle (st.nOracle + 1) - startBuyer
          ∧ startSeller - env.oracle st.nOracle < remaining) →
      ¬(remaining ≤ startSeller - env.oracle st.nOracle
          ∧ env.oracle (st.nOracle + 1) - startBuyer = 0) →
      env.cancelOk st.nCancel = false →
      ∃ st1, matchLoop env token midPrice seller buyer startSeller startBuyer
          (fuel + 1) remaining st = some (PairRes.failed Err.cancelFailed st1)) := by
  refine ⟨?_, ?_, ?_⟩
  · intro env ok' token size buyPrice w startVol fuel
    induction fuel with
    | zero => intro a lastOid st; rfl
    | succ n ih =>
        intro a lastOid st
        simp only [initialBuyLoop, postOrder, readOracle, cancelOrder]
        split_ifs with h1 h2
        · exact ih _ _ _
        · rfl
        · rfl
  · intro env token midPrice seller buyer startSeller startBuyer remaining fuel st
      hrem hclass hcfail
    refine ⟨?_, ?_⟩
    rotate_left
    · simp only [matchLoop, postOrder, readOracle, cancelOrder, fetchNbboCall]
      rw [if_pos hrem, hclass, hcfail]
      exact rfl
  · intro env token midPrice seller buyer startSeller startBuyer remaining fuel st
      hrem hclass hre hdiv hmis hcfail
    refine ⟨?_, ?_⟩
    rotate_left
    · simp only [matchLoop, postOrder, readOracle, cancelOrder, fetchNbboCall]
      rw [if_pos hrem, hclass]
      have e2 : st.nOracle + 1 + 1 = st.nOracle + 2 := rfl
      have e3 : st.nOracle + 1 + 1 + 1 = st.nOracle + 3 := rfl
      rw [e2, e3]
      rw [if_neg hre, if_neg hdiv, if_neg hmis, hcfail]
      exact rfl

/-- Witness for C6 as amended: (i) the acquisition loop runs identically
whether cancels all succeed or all fail; (ii) on `envCancelFail` the
partial-fill branch aborts; (iii) a zero-progress anomaly with a failing
cancel aborts from the catch-all branch. -/
theorem cancellation_failure_spec_witness :
    initialBuyLoop (⟨fun _ => 5, fun _ => 7, fun _ => true, fun _ => (none, none)⟩ : Env ℤ)
        "tok" 9 1 0 0 3 0 none st0
      = initialBuyLoop (⟨(⟨fun _ => 5, fun _ => 7, fun _ => true,
            fun _ => (none, none)⟩ : Env ℤ).oracle,
          (⟨fun _ => 5, fun _ => 7, fun _ => true, fun _ => (none, none)⟩ : Env ℤ).orderResp,
          fun _ => false,
          (⟨fun _ => 5, fun _ => 7, fun _ => true, fun _ => (none, none)⟩ : Env ℤ).nbbo⟩ : Env ℤ)
          "tok" 9 1 0 0 3 0 none st0
    ∧ (∃ st1, matchLoop envCancelFail "tok" 1 0 1 5 0 (1 + 1) 5
        (⟨2, 0, 0, 0, []⟩ : St ℤ) = some (PairRes.failed Err.cancelFailed st1))
    ∧ (∃ st1, matchLoop envCancelFail "tok" 1 0 1 0 0 (1 + 1) 5 st0
        = some (PairRes.failed Err.cancelFailed st1)) :=
  ⟨cancellation_failure_spec.1
      (⟨fun _ => 5, fun _ => 7, fun _ => true, fun _ => (none, none)⟩ : Env ℤ)
      (fun _ => false) "tok" 9 1 0 0 3 0 none st0,
   cancellation_failure_spec.2.1 envCancelFail "tok" 1 0 1 5 0 5 1
      (⟨2, 0, 0, 0, []⟩ : St ℤ) (by decide) (by decide) rfl,
   cancellation_failure_spec.2.2 envCancelFail "tok" 1 0 1 0 0 5 1 st0
      (by decide) (by decide) (by decide) (by decide) (by decide) rfl⟩

/-- C10: (i) each pair of the hand-off walk reads the two start snapshots
exactly once, at consecutive fresh oracle indices, before the first attempt,
and hands them to the matching loop as fixed parameters; (ii) a full match
at any attempt is decided by `sold = startSeller - post` and
`bought = post - startBuyer` measured against those original snapshots; and
(iii) a partial fill retries the same pair with the same snapshots, the
remaining shrunk by the cumulative `sold`, and the next attempt reading two
fresh oracle indices — so fills settled during earlier attempts count toward
later attempts' classification. -/
theorem pair_cumulative_delta_spec {α : Type} [LinearOrderedAddCommGroup α]
    (env : Env α) (token : String) (midPrice : α) (seller buyer : ℕ) (fuel : ℕ) :
    (∀ (size : α) (rest : List ℕ) (st : St α),
      pairsWalk env token size midPrice fuel (seller :: buyer :: rest) st
        = match matchLoop env token midPrice seller buyer (env.oracle st.nOracle)
            (env.oracle (st.nOracle + 1)) fuel size
            (⟨st.nOracle + 2, st.nOrder, st.nCancel, st.nNbbo,
              Event.oracleRead buyer (env.oracle (st.nOracle + 1))
                :: Event.oracleRead seller (env.oracle st.nOracle) :: st.events⟩ : St α) with
          | none => none
          | some (PairRes.failed e st1) => some (WalkRes.failed e st1)
          | some (PairRes.restart st1) => some (WalkRes.restartReq st1)
          | some (PairRes.done st1) =>
              pairsWalk env token size midPrice fuel (buyer :: rest) st1)
    ∧ (∀ (startSeller startBuyer remaining : α) (st : St α),
        0 < remaining →
        remaining ≤ startSeller - env.oracle st.nOracle →
        remaining ≤ env.oracle (st.nOracle + 1) - startBuyer →
        ∃ st1, matchLoop env token midPrice seller buyer startSeller startBuyer
            (fuel + 1) remaining st = some (PairRes.done st1))
    ∧ (∀ (startSeller startBuyer remaining : α) (st : St α),
        0 < remaining →
        classifyStep (startSeller - env.oracle st.nOracle)
            (env.oracle (st.nOracle + 1) - startBuyer) remaining
          = StepClass.shortFill →
        env.cancelOk st.nCancel = true →
        env.cancelOk (st.nCancel + 1) = true →
        ∃ st1, matchLoop env token midPrice seller buyer startSeller startBuyer
            (fuel + 1) remaining st
          = matchLoop env token midPrice seller buyer startSeller startBuyer fuel
              (remaining - (startSeller - env.oracle st.nOracle)) st1
          ∧ st1.nOracle = st.nOracle + 2 ∧ st1.nOrder = st.nOrder + 2
          ∧ st1.nCancel = st.nCancel + 2) := by
  refine ⟨?_, ?_, ?_⟩
  · intro size rest st
    rfl
  · intro startSeller startBuyer remaining st hrem hs hb
    have hclass : classifyStep (startSeller - env.oracle st.nOracle)
        (env.oracle (st.nOracle + 1) - startBuyer) remaining = StepClass.fullMatch := by
      unfold classifyStep
      rw [if_pos (And.intro hs hb)]
    refine ⟨?_, ?_⟩
    rotate_left
    · simp only [matchLoop, postOrder, readOracle, cancelOrder, fetchNbboCall]
      rw [if_pos hrem, hclass]
      exact rfl
  · intro startSeller startBuyer remaining st hrem hclass hc1 hc2
    refine ⟨?_, ?_, ?_, ?_, ?_⟩
    rotate_left
    · simp only [matchLoop, postOrder, readOracle, cancelOrder, fetchNbboCall]
      rw [if_pos hrem, hclass, hc1, hc2]
      exact rfl
    · exact rfl
    · exact rfl
    · exact rfl

/-- Concrete world for the C10 witness: attempt 1 settles 3 of 5 on both
sides (partial fill); on attempt 2 the buyer settles nothing further, yet
the pair full-matches because the cumulative deltas from the original
snapshots (`sold = 5`, `bought = 3`) cover the shrunk remaining of 2. -/
def envCumulative : Env ℤ :=
  ⟨fun k => [(5:ℤ), 0, 2, 3, 0, 3].getD k 0, fun _ => 7, fun _ => true,
   fun _ => (none, none)⟩

/-- Witness for C10 on `envCumulative`: the pair-entry equation, the
partial-fill recursion of attempt 1, and the cumulative full match of
attempt 2. -/
theorem pair_cumulative_delta_spec_witness :
    (pairsWalk envCumulative "tok" 5 1 3 [0, 1] st0
      = match matchLoop envCumulative "tok" 1 0 1 (envCumulative.oracle st0.nOracle)
          (envCumulative.oracle (st0.nOracle + 1)) 3 5
          (⟨st0.nOracle + 2, st0.nOrder, st0.nCancel, st0.nNbbo,
            Event.oracleRead 1 (envCumulative.oracle (st0.nOracle + 1))
              :: Event.oracleRead 0 (envCumulative.oracle st0.nOracle) :: st0.events⟩ : St ℤ) with
        | none => none
        | some (PairRes.failed e st1) => some (WalkRes.failed e st1)
        | some (PairRes.restart st1) => some (WalkRes.restartReq st1)
        | some (PairRes.done st1) => pairsWalk envCumulative "tok" 5 1 3 [1] st1)
    ∧ (∃ st1, matchLoop envCumulative "tok" 1 0 1 5 0 (1 + 1) 5
          (⟨2, 0, 0, 0, []⟩ : St ℤ)
        = matchLoop envCumulative "tok" 1 0 1 5 0 1
            (5 - (5 - envCumulative.oracle 2)) st1
        ∧ st1.nOracle = 2 + 2 ∧ st1.nOrder = 0 + 2 ∧ st1.nCancel = 0 + 2)
    ∧ (∃ st1, matchLoop envCumulative "tok" 1 0 1 5 0 (0 + 1) 2
          (⟨4, 2, 2, 0, []⟩ : St ℤ) = some (PairRes.done st1)) :=
  ⟨(pair_cumulative_delta_spec envCumulative "tok" 1 0 1 3).1 5 [] st0,
   (pair_cumulative_delta_spec envCumulative "tok" 1 0 1 1).2.2 5 0 5
      (⟨2, 0, 0, 0, []⟩ : St ℤ) (by decide) (by decide) rfl rfl,
   (pair_cumulative_delta_spec envCumulative "tok" 1 0 1 0).2.1 5 0 2
      (⟨4, 2, 2, 0, []⟩ : St ℤ) (by decide) (by decide) (by decide)⟩

end CrossFill
